import Mathlib

/-!
Verification of the algorithmic core of the `christmas-tree` application:
the gesture-to-control mapping of `GestureInput.tsx` and the layout /
frame-interpolation pipeline of `TreeSystem.tsx`.

Numbers are embedded as `ℚ` (exact arithmetic) where the code only adds,
multiplies, clamps and compares, and as `ℝ` where the code uses
`Math.exp` / trigonometry.  JavaScript division that can hit a zero
denominator (producing NaN/Infinity) is modelled with `Option`.
-/

/- The application mode (`AppState` in `types.ts`). -/
inductive AppState where
  | CHAOS
  | FORMED
deriving DecidableEq

/-- `GESTURE_CONFIG.dwellClickTime` (1.2 seconds). -/
def dwellClickTime : ℚ := 6/5

/-- `GESTURE_CONFIG.clickCooldown` (2.0 seconds). -/
def clickCooldownTime : ℚ := 2

/-- The classified per-frame inputs consumed by the control-mapping part of
`predictWebcam`: number of detected hands, whether a photo panel is open,
the first hand's gesture booleans, the app state, the (normalized) index
fingertip position and the elapsed time `delta` of this frame. -/
structure FrameInput where
  numHands : ℕ
  photoOpen : Bool
  isPointing : Bool
  pinch : Bool
  isTwoFingers : Bool
  isFiveFingers : Bool
  isMoving : Bool
  appState : AppState
  tipX : ℚ
  tipY : ℚ
  delta : ℚ
deriving DecidableEq

/-- The mutable state of the dwell-click logic: `dwellTimerRef` and
`clickCooldownRef` in `GestureInput.tsx`. -/
structure ClickState where
  dwellTimer : ℚ
  clickCooldown : ℚ
deriving DecidableEq

/-- The externally visible effects of one `predictWebcam` frame on the
pointer/click section: the new timer state, the values passed to
`setHoverProgress` (in call order), the value passed to
`setAttractorPoint`, and whether `setClickTrigger` fired. -/
structure FrameOut where
  state : ClickState
  hoverCalls : List ℚ
  attractor : Option (ℚ × ℚ)
  clickFired : Bool
deriving DecidableEq

/-- One landmark-frame update of the control mapper, restricted to the
state touched by the dwell/click/attractor logic (sections 3 and 4 of
`predictWebcam`, plus the no-hand branch).  Mirrors
`GestureInput.tsx` lines 349-401 and 458-472. -/
def frameStep (s : ClickState) (inp : FrameInput) : FrameOut :=
  if inp.numHands = 0 then
    -- no hand detected: reset timer and hover, clear attractor, decay cooldown
    { state := { dwellTimer := 0,
                 clickCooldown := if 0 < s.clickCooldown then s.clickCooldown - inp.delta
                                  else s.clickCooldown },
      hoverCalls := [0], attractor := none, clickFired := false }
  else
    -- two-finger pan resets the dwell timer and hover progress
    let panHover : List ℚ := if ¬inp.photoOpen ∧ inp.isTwoFingers then [0] else []
    let t0 : ℚ := if ¬inp.photoOpen ∧ inp.isTwoFingers then 0 else s.dwellTimer
    -- single-finger pointing and click
    if ¬inp.isTwoFingers ∧ ¬inp.isFiveFingers ∧ inp.appState = AppState.CHAOS ∧
        (inp.isPointing ∨ inp.pinch) then
      let attractor : Option (ℚ × ℚ) := some (1 - inp.tipX, inp.tipY)
      if inp.pinch then
        -- pinch click: edge-triggered via the timer used as a flag
        if t0 = 0 then
          { state := { dwellTimer := -(1/2), clickCooldown := s.clickCooldown },
            hoverCalls := panHover, attractor := attractor, clickFired := true }
        else if t0 < 0 then
          { state := { dwellTimer := if 0 < t0 + inp.delta then 0 else t0 + inp.delta,
                       clickCooldown := s.clickCooldown },
            hoverCalls := panHover, attractor := attractor, clickFired := false }
        else
          { state := { dwellTimer := t0, clickCooldown := s.clickCooldown },
            hoverCalls := panHover, attractor := attractor, clickFired := false }
      else if ¬inp.isMoving then
        -- dwell accumulation
        if dwellClickTime ≤ t0 + inp.delta then
          { state := { dwellTimer := 0, clickCooldown := clickCooldownTime },
            hoverCalls := panHover ++ [min ((t0 + inp.delta) / dwellClickTime) 1, 0],
            attractor := attractor, clickFired := true }
        else
          { state := { dwellTimer := t0 + inp.delta, clickCooldown := s.clickCooldown },
            hoverCalls := panHover ++ [min ((t0 + inp.delta) / dwellClickTime) 1],
            attractor := attractor, clickFired := false }
      else
        -- movement beyond the jitter threshold: decay at twice the rate, floored at 0
        { state := { dwellTimer := max 0 (t0 - inp.delta * 2), clickCooldown := s.clickCooldown },
          hoverCalls := panHover ++ [min (max 0 (t0 - inp.delta * 2) / dwellClickTime) 1],
          attractor := attractor, clickFired := false }
    else
      { state := { dwellTimer := 0, clickCooldown := s.clickCooldown },
        hoverCalls := panHover ++ [0], attractor := none, clickFired := false }

/-- A frame in which the single hand pinches while pointing, in CHAOS mode. -/
def pinchClickInput : FrameInput :=
  { numHands := 1, photoOpen := false, isPointing := true, pinch := true,
    isTwoFingers := false, isFiveFingers := false, isMoving := false,
    appState := AppState.CHAOS, tipX := 1/2, tipY := 1/2, delta := 1/10 }

/-- A frame in which the single hand keeps pointing without pinching and
without moving, in CHAOS mode, with frame time `d`. -/
def holdPointInput (d : ℚ) : FrameInput :=
  { pinchClickInput with pinch := false, delta := d }

/-- `C1`: the claim states that every value passed to `setHoverProgress`
lies in `[0, 1]`.  It does not: a pinch click sets the dwell timer to
`-0.5`, and a following non-moving pointing frame (0.1 s) computes
`min(dwellTimer / 1.2, 1.0)` with no lower clamp, passing `-1/3` to
`setHoverProgress`. -/
theorem c1_hover_progress_negative_after_pinch :
    (frameStep (frameStep ⟨0, 0⟩ pinchClickInput).state (holdPointInput (1/10))).hoverCalls
      = [-(1/3)] ∧ (-(1/3) : ℚ) < 0 := by
  have h1 : (frameStep ⟨0, 0⟩ pinchClickInput).state = ⟨-(1/2), 0⟩ := by
    norm_num [frameStep, pinchClickInput]
  rw [h1]
  norm_num [frameStep, holdPointInput, pinchClickInput, dwellClickTime, min_def]

/-- Like `holdPointInput`, but the palm moves beyond the jitter threshold. -/
def movingPointInput (d : ℚ) : FrameInput :=
  { holdPointInput d with isMoving := true }

/-- On a non-moving pointing frame, `frameStep` reduces to the dwell
accumulation branch. -/
theorem frameStep_hold (s : ClickState) (d : ℚ) :
    frameStep s (holdPointInput d) =
      if dwellClickTime ≤ s.dwellTimer + d then
        { state := ⟨0, clickCooldownTime⟩,
          hoverCalls := [min ((s.dwellTimer + d) / dwellClickTime) 1, 0],
          attractor := some (1/2, 1/2), clickFired := true }
      else
        { state := ⟨s.dwellTimer + d, s.clickCooldown⟩,
          hoverCalls := [min ((s.dwellTimer + d) / dwellClickTime) 1],
          attractor := some (1/2, 1/2), clickFired := false } := by
  simp [frameStep, holdPointInput, pinchClickInput]
  norm_num

/-- The dwell state after `k` frames of constantly holding a non-moving
pointing gesture (frame time `d`), starting from a zero dwell timer. -/
def dwellHoldState (d : ℚ) : ℕ → ClickState
  | 0 => ⟨0, 0⟩
  | k + 1 => (frameStep (dwellHoldState d k) (holdPointInput d)).state

/-- `C6`: dwell click end-to-end.  Holding a constant non-moving pointing
gesture (no pinch) from a zero dwell timer at fixed frame time `d`, with
`k0` the frame whose accumulated time first reaches the dwell duration:
the timer accumulates linearly up to that frame, the click trigger fires
exactly once among the frames covering the dwell duration (at frame `k0`),
the value passed to `setHoverProgress` at the fire instant is exactly `1`
(followed by the reset to `0`), and while the palm moves beyond the jitter
threshold the timer decays at twice the accumulation rate, floored at `0`,
rather than resetting instantly. -/
theorem c6_dwell_click (d : ℚ) (k0 : ℕ) (hd : 0 < d)
    (hk1 : (k0 : ℚ) * d < dwellClickTime)
    (hk2 : dwellClickTime ≤ ((k0 : ℚ) + 1) * d) :
    (∀ k ≤ k0, (dwellHoldState d k).dwellTimer = (k : ℚ) * d) ∧
    (∀ k ≤ k0, ((frameStep (dwellHoldState d k) (holdPointInput d)).clickFired = true ↔ k = k0)) ∧
    (frameStep (dwellHoldState d k0) (holdPointInput d)).hoverCalls = [1, 0] ∧
    (∀ s : ClickState, (frameStep s (movingPointInput d)).state.dwellTimer
        = max 0 (s.dwellTimer - d * 2)) := by
  have hdct : (0 : ℚ) < dwellClickTime := by norm_num [dwellClickTime]
  have htimer : ∀ k, k ≤ k0 → (dwellHoldState d k).dwellTimer = (k : ℚ) * d := by
    intro k
    induction k with
    | zero => intro _; simp [dwellHoldState]
    | succ n ih =>
      intro hn
      have hn' : n ≤ k0 := Nat.le_of_succ_le hn
      have ht := ih hn'
      have hlt : ((n : ℚ) + 1) * d ≤ (k0 : ℚ) * d := by
        have hcast : ((n : ℚ) + 1) ≤ (k0 : ℚ) := by exact_mod_cast hn
        exact mul_le_mul_of_nonneg_right hcast (le_of_lt hd)
      show (frameStep (dwellHoldState d n) (holdPointInput d)).state.dwellTimer = _
      rw [frameStep_hold, if_neg (by rw [ht]; nlinarith)]
      rw [ht]; push_cast; ring
  refine ⟨htimer, ?_, ?_, ?_⟩
  · intro k hk
    rw [frameStep_hold, htimer k hk]
    rcases eq_or_lt_of_le hk with h | h
    · subst h
      rw [if_pos (by nlinarith)]
      simp
    · have hlt : ((k : ℚ) + 1) * d ≤ (k0 : ℚ) * d := by
        have hcast : ((k : ℚ) + 1) ≤ (k0 : ℚ) := by exact_mod_cast h
        exact mul_le_mul_of_nonneg_right hcast (le_of_lt hd)
      rw [if_neg (by nlinarith)]
      simp
      omega
  · rw [frameStep_hold, htimer k0 le_rfl, if_pos (by nlinarith)]
    have h1 : (1 : ℚ) ≤ ((k0 : ℚ) * d + d) / dwellClickTime := by
      rw [le_div_iff₀ hdct]
      nlinarith
    rw [min_eq_right h1]
  · intro s
    simp [frameStep, movingPointInput, holdPointInput, pinchClickInput]

/-- Witness for `c6_dwell_click` at frame time `0.6 s`, firing at frame 1. -/
theorem c6_dwell_click_witness :
    (0 : ℚ) < 3/5 ∧
      (frameStep (dwellHoldState (3/5) 1) (holdPointInput (3/5))).hoverCalls = [1, 0] :=
  ⟨by norm_num,
   (c6_dwell_click (3/5) 1 (by norm_num) (by norm_num [dwellClickTime])
      (by norm_num [dwellClickTime])).2.2.1⟩

/-- The attractor rule as claim `C7` words it: active only when EXACTLY one
hand is present (plus the other conditions). -/
def attractorPerClaim (inp : FrameInput) : Option (ℚ × ℚ) :=
  if inp.numHands = 1 ∧ ¬inp.isTwoFingers ∧ ¬inp.isFiveFingers ∧
      inp.appState = AppState.CHAOS ∧ (inp.isPointing ∨ inp.pinch) then
    some (1 - inp.tipX, inp.tipY)
  else none

/-- The attractor rule the code implements: the hand count is only required
to be nonzero (the outer `landmarks.length > 0` check); the first hand's
gesture is used even when two hands are present. -/
def attractorInCode (inp : FrameInput) : Option (ℚ × ℚ) :=
  if 1 ≤ inp.numHands ∧ ¬inp.isTwoFingers ∧ ¬inp.isFiveFingers ∧
      inp.appState = AppState.CHAOS ∧ (inp.isPointing ∨ inp.pinch) then
    some (1 - inp.tipX, inp.tipY)
  else none

/-- Two hands detected while the first hand points, in CHAOS mode. -/
def twoHandsPointInput : FrameInput :=
  { holdPointInput (1/10) with numHands := 2, tipX := 1/4, tipY := 1/3 }

/-- Counterexample to `C7` as stated: with two hands present and the first
hand pointing in CHAOS mode, the code still sets the attractor point (the
claim requires it to be cleared to null unless exactly one hand is
present). -/
theorem c7_attractor_counterexample :
    (frameStep ⟨0, 0⟩ twoHandsPointInput).attractor = some (3/4, 1/3) ∧
      attractorPerClaim twoHandsPointInput = none := by
  constructor
  · norm_num [frameStep, twoHandsPointInput, holdPointInput, pinchClickInput, dwellClickTime]
  · norm_num [attractorPerClaim, twoHandsPointInput, holdPointInput, pinchClickInput]

/-- `C7` amended: on every landmark frame the attractor point is set to the
horizontally mirrored index-fingertip position exactly when at least one
hand is present, the first hand is neither two-finger nor five-finger, the
app state is CHAOS, and the first hand is pointing or pinching; in every
other case it is cleared to null. -/
theorem c7_attractor_amended (s : ClickState) (inp : FrameInput) :
    (frameStep s inp).attractor = attractorInCode inp := by
  rcases Nat.eq_zero_or_pos inp.numHands with h0 | h0
  · simp [frameStep, attractorInCode, h0]
  · have hne : ¬ inp.numHands = 0 := Nat.pos_iff_ne_zero.mp h0
    have h1 : 1 ≤ inp.numHands := h0
    simp only [frameStep, attractorInCode, hne, if_false, h1, true_and]
    split_ifs <;> rfl

/-- The gesture stability state machine of `GestureInput.tsx` (class
`GestureStateMachine`), with gesture labels embedded as `Option ℕ`
(`null` is `none`). -/
structure GestureStateMachine where
  currentGesture : Option ℕ
  gestureCount : ℕ
  stabilityThreshold : ℕ
deriving DecidableEq

/-- `GestureStateMachine.update`: an equal label bumps the counter (capped
at twice the threshold), a different label replaces the candidate and
resets the counter to 1. -/
def GestureStateMachine.update (s : GestureStateMachine) (gesture : Option ℕ) :
    GestureStateMachine :=
  if gesture = s.currentGesture then
    { s with gestureCount := min (s.gestureCount + 1) (s.stabilityThreshold * 2) }
  else
    { s with currentGesture := gesture, gestureCount := 1 }

/-- The `stable` flag returned by `GestureStateMachine.update`, computed
from the post-update state. -/
def GestureStateMachine.stable (s : GestureStateMachine) : Bool :=
  s.stabilityThreshold ≤ s.gestureCount

/-- The machine as constructed in the component:
`new GestureStateMachine(GESTURE_CONFIG.gestureStabilityFrames)` with
threshold 10 and the initial `null` candidate / zero counter. -/
def GestureStateMachine.init : GestureStateMachine := ⟨none, 0, 10⟩

/-- Feed a whole sequence of labels into the machine, oldest first. -/
def gsmFeed (l : List (Option ℕ)) : GestureStateMachine :=
  l.foldl GestureStateMachine.update GestureStateMachine.init

/-- Length of the maximal constant prefix of a list. -/
def leadRunLen : List (Option ℕ) → ℕ
  | [] => 0
  | [_] => 1
  | a :: b :: rest => if a = b then leadRunLen (b :: rest) + 1 else 1

/-- Length of the maximal constant suffix of a list. -/
def trailRunLen (l : List (Option ℕ)) : ℕ := leadRunLen l.reverse

theorem minCapSucc (x : ℕ) : min (min x 20 + 1) 20 = min (x + 1) 20 := by omega

/-- After feeding a nonempty sequence, the machine's candidate is the last
label and its counter is the trailing-run length capped at 20. -/
theorem gsmFeed_reverse (a : Option ℕ) (rest : List (Option ℕ)) :
    gsmFeed ((a :: rest).reverse) =
      ⟨a, min (leadRunLen (a :: rest)) 20, 10⟩ := by
  induction rest generalizing a with
  | nil =>
    by_cases h : a = (none : Option ℕ) <;>
      simp [gsmFeed, GestureStateMachine.init, GestureStateMachine.update, leadRunLen, h]
  | cons b rest ih =>
    have hrev : (a :: b :: rest).reverse = (b :: rest).reverse ++ [a] := by
      simp
    rw [hrev]
    have hfold : gsmFeed ((b :: rest).reverse ++ [a]) =
        GestureStateMachine.update (gsmFeed ((b :: rest).reverse)) a := by
      simp [gsmFeed, List.foldl_append]
    rw [hfold, ih b]
    by_cases hab : a = b
    · simp [GestureStateMachine.update, hab, leadRunLen, minCapSucc]
    · simp [GestureStateMachine.update, hab, leadRunLen]

/-- The label sequence of the debounce scenario: 9 identical labels, one
different label, then 9 more of the first label. -/
def seq919 : List (Option ℕ) :=
  List.replicate 9 (some 0) ++ some 1 :: List.replicate 9 (some 0)

/-- `C5`: the machine reports "stable" after a nonempty feed exactly when
the trailing constant run of fed labels has length at least 10; any label
change resets the counter to 1; in particular the 9-1-9 scenario never
reports stable at any of its 19 updates, while 10 consecutive identical
labels do report stable. -/
theorem c5_gesture_stability
    (l : List (Option ℕ)) (hl : l ≠ []) :
    ((gsmFeed l).stable = true ↔ 10 ≤ trailRunLen l) ∧
    (∀ (s : GestureStateMachine) (g : Option ℕ),
        g ≠ s.currentGesture → (s.update g).gestureCount = 1) ∧
    (∀ k < 20, 1 ≤ k → (gsmFeed (seq919.take k)).stable = false) ∧
    (gsmFeed (List.replicate 10 (some 0))).stable = true := by
  refine ⟨?_, ?_, by decide, by decide⟩
  · obtain ⟨a, rest, hrev⟩ : ∃ a rest, l.reverse = a :: rest := by
      rcases hr : l.reverse with _ | ⟨a, rest⟩
      · exact absurd (by simpa using congrArg List.reverse hr) hl
      · exact ⟨a, rest, rfl⟩
    have hl' : l = (a :: rest).reverse := by
      rw [← hrev, List.reverse_reverse]
    rw [hl', trailRunLen, List.reverse_reverse, gsmFeed_reverse]
    simp only [GestureStateMachine.stable]
    constructor
    · intro h
      have : 10 ≤ min (leadRunLen (a :: rest)) 20 := by
        simpa using h
      omega
    · intro h
      simp only [decide_eq_true_eq]
      omega
  · intro s g hg
    simp [GestureStateMachine.update, hg]

/-- Witness for `c5_gesture_stability` on 10 consecutive identical labels. -/
theorem c5_gesture_stability_witness :
    List.replicate 10 (some 0) ≠ ([] : List (Option ℕ)) ∧
      ((gsmFeed (List.replicate 10 (some 0))).stable = true ↔
        10 ≤ trailRunLen (List.replicate 10 (some 0))) :=
  ⟨by decide, (c5_gesture_stability (List.replicate 10 (some 0)) (by decide)).1⟩

/-- `Math.sign`. -/
def jsSign (d : ℚ) : ℚ := if 0 < d then 1 else if d < 0 then -1 else 0

/-- The nonlinear delta amplification `Math.sign(delta) * speed * (1 + speed * k)`
with `speed = |delta|`, used by both zoom paths (`k = 50` one-hand,
`k = 30` two-hand). -/
def amplifiedDelta (k d : ℚ) : ℚ := jsSign d * |d| * (1 + |d| * k)

/-- One update of the one-hand zoom path:
`prev - amplifiedDelta * 200` clamped to `[-20, 40]`. -/
def zoomStepOneHand (prev d : ℚ) : ℚ :=
  max (-20) (min (prev - amplifiedDelta 50 d * 200) 40)

/-- One update of the two-hand zoom path:
`prev - amplifiedDelta * 100` clamped to `[-20, 40]`. -/
def zoomStepTwoHand (prev d : ℚ) : ℚ :=
  max (-20) (min (prev - amplifiedDelta 30 d * 100) 40)

/-- Iterate the one-hand zoom path over a sequence of hand-scale deltas. -/
def zoomIterOneHand (p : ℚ) : List ℚ → ℚ
  | [] => p
  | d :: ds => zoomIterOneHand (zoomStepOneHand p d) ds

/-- Counterexample to `C8` as stated: repeatedly feeding a large POSITIVE
hand-scale delta drives the zoom offset to the configured MINIMUM (-20),
not the configured maximum (40), because the update subtracts the
amplified delta. -/
theorem c8_zoom_counterexample :
    zoomIterOneHand 0 [1, 1, 1, 1, 1] = -20 ∧ ((-20 : ℚ) ≠ 40) := by
  norm_num [zoomIterOneHand, zoomStepOneHand, amplifiedDelta, jsSign, min_def, max_def]

/-- `C8` amended: every update of either zoom path lands in the configured
bounds `[-20, 40]`; a large positive delta (`d ≥ 1`) pins the offset at the
minimum `-20` in one step, and a large negative delta (`d ≤ -1`) pins it
at the maximum `40`, for both the one-hand and two-hand paths. -/
theorem c8_zoom_clamp :
    (∀ p d : ℚ, -20 ≤ zoomStepOneHand p d ∧ zoomStepOneHand p d ≤ 40) ∧
    (∀ p d : ℚ, -20 ≤ zoomStepTwoHand p d ∧ zoomStepTwoHand p d ≤ 40) ∧
    (∀ p d : ℚ, p ≤ 40 → 1 ≤ d → zoomStepOneHand p d = -20) ∧
    (∀ p d : ℚ, -20 ≤ p → d ≤ -1 → zoomStepOneHand p d = 40) ∧
    (∀ p d : ℚ, p ≤ 40 → 1 ≤ d → zoomStepTwoHand p d = -20) ∧
    (∀ p d : ℚ, -20 ≤ p → d ≤ -1 → zoomStepTwoHand p d = 40) := by
  have bound : ∀ x : ℚ, -20 ≤ max (-20) (min x 40) ∧ max (-20) (min x 40) ≤ 40 :=
    fun x => ⟨le_max_left _ _, max_le (by norm_num) (min_le_right _ _)⟩
  have ampPos : ∀ d : ℚ, 0 < d → ∀ k : ℚ, amplifiedDelta k d = d * (1 + d * k) := by
    intro d hd k
    simp [amplifiedDelta, jsSign, hd, abs_of_pos hd]
  have ampNeg : ∀ d : ℚ, d < 0 → ∀ k : ℚ, amplifiedDelta k d = d * (1 - d * k) := by
    intro d hd k
    have h0 : ¬ (0 : ℚ) < d := by linarith
    have hs : jsSign d = -1 := by simp [jsSign, h0, hd]
    rw [amplifiedDelta, hs, abs_of_neg hd]
    ring
  refine ⟨fun p d => bound _, fun p d => bound _, ?_, ?_, ?_, ?_⟩
  · intro p d hp hd
    have h := ampPos d (by linarith) 50
    unfold zoomStepOneHand
    rw [h]
    have hle : p - d * (1 + d * 50) * 200 ≤ -20 := by nlinarith
    rw [min_eq_left (by linarith), max_eq_left hle]
  · intro p d hp hd
    have h := ampNeg d (by linarith) 50
    unfold zoomStepOneHand
    rw [h]
    have hge : (40 : ℚ) ≤ p - d * (1 - d * 50) * 200 := by nlinarith
    rw [min_eq_right hge, max_eq_right (by norm_num)]
  · intro p d hp hd
    have h := ampPos d (by linarith) 30
    unfold zoomStepTwoHand
    rw [h]
    have hle : p - d * (1 + d * 30) * 100 ≤ -20 := by nlinarith
    rw [min_eq_left (by linarith), max_eq_left hle]
  · intro p d hp hd
    have h := ampNeg d (by linarith) 30
    unfold zoomStepTwoHand
    rw [h]
    have hge : (40 : ℚ) ≤ p - d * (1 - d * 30) * 100 := by nlinarith
    rw [min_eq_right hge, max_eq_right (by norm_num)]

/-- Witness for `c8_zoom_clamp`: a positive delta from offset 0 pins the
one-hand zoom at the minimum. -/
theorem c8_zoom_clamp_witness :
    (0 : ℚ) ≤ 40 ∧ zoomStepOneHand 0 1 = -20 :=
  ⟨by norm_num, c8_zoom_clamp.2.2.1 0 1 (by norm_num) (by norm_num)⟩

/-- The exponential low-pass filter of `GestureInput.tsx` (class
`LowPassFilter`): internal state `value` and smoothing factor `alpha`. -/
structure LowPassFilter where
  alpha : ℚ
  value : ℚ
deriving DecidableEq

/-- `LowPassFilter.filter`: `value = alpha * newValue + (1 - alpha) * value`. -/
def LowPassFilter.filter (f : LowPassFilter) (newValue : ℚ) : LowPassFilter :=
  { f with value := f.alpha * newValue + (1 - f.alpha) * f.value }

/-- Feed a whole sequence of raw samples through the filter. -/
def LowPassFilter.run (f : LowPassFilter) (l : List ℚ) : LowPassFilter :=
  l.foldl LowPassFilter.filter f

/-- `C10`: for a smoothing factor in `[0, 1]` each filter output lies
between the previous state and the new input, and inductively, starting
from a state in `[0, 1]` and feeding any sequence of inputs in `[0, 1]`,
every output (the state after any prefix) remains in `[0, 1]`. -/
theorem c10_low_pass_interval :
    (∀ (f : LowPassFilter) (x : ℚ), 0 ≤ f.alpha → f.alpha ≤ 1 →
        min f.value x ≤ (f.filter x).value ∧ (f.filter x).value ≤ max f.value x) ∧
    (∀ (f : LowPassFilter) (l : List ℚ), 0 ≤ f.alpha → f.alpha ≤ 1 →
        0 ≤ f.value → f.value ≤ 1 → (∀ x ∈ l, 0 ≤ x ∧ x ≤ 1) →
        ∀ n, 0 ≤ (f.run (l.take n)).value ∧ (f.run (l.take n)).value ≤ 1) := by
  have step : ∀ (f : LowPassFilter) (x : ℚ), 0 ≤ f.alpha → f.alpha ≤ 1 →
      min f.value x ≤ (f.filter x).value ∧ (f.filter x).value ≤ max f.value x := by
    intro f x h0 h1
    simp only [LowPassFilter.filter]
    constructor
    · have ha := mul_le_mul_of_nonneg_left (min_le_right f.value x) h0
      have hb := mul_le_mul_of_nonneg_left (min_le_left f.value x)
        (by linarith : (0 : ℚ) ≤ 1 - f.alpha)
      nlinarith
    · have ha := mul_le_mul_of_nonneg_left (le_max_right f.value x) h0
      have hb := mul_le_mul_of_nonneg_left (le_max_left f.value x)
        (by linarith : (0 : ℚ) ≤ 1 - f.alpha)
      nlinarith
  have main : ∀ (l : List ℚ) (f : LowPassFilter), 0 ≤ f.alpha → f.alpha ≤ 1 →
      0 ≤ f.value → f.value ≤ 1 → (∀ x ∈ l, 0 ≤ x ∧ x ≤ 1) →
      0 ≤ (f.run l).value ∧ (f.run l).value ≤ 1 := by
    intro l
    induction l with
    | nil =>
      intro f _ _ hv0 hv1 _
      exact ⟨by simpa [LowPassFilter.run] using hv0, by simpa [LowPassFilter.run] using hv1⟩
    | cons x xs ih =>
      intro f h0 h1 hv0 hv1 hmem
      have hx := hmem x (List.mem_cons_self _ _)
      have hrun : f.run (x :: xs) = (f.filter x).run xs := by
        simp [LowPassFilter.run]
      have hα : (f.filter x).alpha = f.alpha := rfl
      have hs := step f x h0 h1
      have h0' : 0 ≤ (f.filter x).value :=
        le_trans (le_min hv0 hx.1) hs.1
      have h1' : (f.filter x).value ≤ 1 :=
        le_trans hs.2 (max_le hv1 hx.2)
      rw [hrun]
      exact ih (f.filter x) (hα ▸ h0) (hα ▸ h1) h0' h1'
        (fun y hy => hmem y (List.mem_cons_of_mem _ hy))
  refine ⟨step, ?_⟩
  intro f l h0 h1 hv0 hv1 hmem n
  exact main (l.take n) f h0 h1 hv0 hv1 (fun x hx => hmem x (List.take_subset n l hx))

/-- Witness for `c10_low_pass_interval`: the openness filter
(`alpha = 0.3`) starting at 0 and fed one in-range sample. -/
theorem c10_low_pass_interval_witness :
    (0 : ℚ) ≤ (LowPassFilter.mk (3/10) 0).alpha ∧
      0 ≤ ((LowPassFilter.mk (3/10) 0).run ([1/2].take 1)).value :=
  ⟨by norm_num,
   (c10_low_pass_interval.2 (LowPassFilter.mk (3/10) 0) [1/2] (by norm_num) (by norm_num)
      (by norm_num) (by norm_num)
      (by
        intro x hx
        rw [List.mem_singleton] at hx
        subst hx
        norm_num) 1).1⟩

/-- `THREE.MathUtils.lerp`. -/
def lerp (x y t : ℝ) : ℝ := (1 - t) * x + t * y

/-- `THREE.MathUtils.damp`: `lerp(x, y, 1 - exp(-lambda * dt))`. -/
noncomputable def damp (x y lambda dt : ℝ) : ℝ := lerp x y (1 - Real.exp (-(lambda * dt)))

/-- The per-frame progress scalar of `TreeSystem.tsx`
(`progress.current = THREE.MathUtils.damp(progress.current, target, 2.5, delta)`)
iterated with constant target 1 and fixed frame time `dt`, from 0. -/
noncomputable def progressSeq (dt : ℝ) : ℕ → ℝ
  | 0 => 0
  | n + 1 => damp (progressSeq dt n) 1 2.5 dt

/-- The same update iterated with constant target 0, from `p0`. -/
noncomputable def progressSeqZero (dt p0 : ℝ) : ℕ → ℝ
  | 0 => p0
  | n + 1 => damp (progressSeqZero dt p0 n) 0 2.5 dt

/-- Closed form of the damped progress iteration toward target 1. -/
theorem progressSeq_closed (dt : ℝ) (n : ℕ) :
    progressSeq dt n = 1 - Real.exp (-(2.5 * dt)) ^ n := by
  induction n with
  | zero => simp [progressSeq]
  | succ n ih =>
    simp only [progressSeq, damp, lerp, ih]
    ring

/-- Closed form of the damped progress iteration toward target 0. -/
theorem progressSeqZero_closed (dt p0 : ℝ) (n : ℕ) :
    progressSeqZero dt p0 n = p0 * Real.exp (-(2.5 * dt)) ^ n := by
  induction n with
  | zero => simp [progressSeqZero]
  | succ n ih =>
    simp only [progressSeqZero, damp, lerp, ih]
    ring

/-- `C4`: with a constant target of 1 and a fixed positive frame time, the
progress scalar starting at 0 strictly increases every step, never exceeds
1, and converges to 1; with target 0 it never goes negative (from any
nonnegative start). -/
theorem c4_progress_damp (dt : ℝ) (hdt : 0 < dt) :
    StrictMono (progressSeq dt) ∧
    (∀ n, progressSeq dt n ≤ 1) ∧
    Filter.Tendsto (progressSeq dt) Filter.atTop (nhds 1) ∧
    (∀ p0, 0 ≤ p0 → ∀ n, 0 ≤ progressSeqZero dt p0 n) := by
  have hq0 : 0 < Real.exp (-(2.5 * dt)) := Real.exp_pos _
  have hq1 : Real.exp (-(2.5 * dt)) < 1 := by
    rw [← Real.exp_zero]
    exact Real.exp_lt_exp.mpr (by nlinarith)
  refine ⟨?_, ?_, ?_, ?_⟩
  · apply strictMono_nat_of_lt_succ
    intro n
    rw [progressSeq_closed, progressSeq_closed]
    have hpow : Real.exp (-(2.5 * dt)) ^ (n + 1) < Real.exp (-(2.5 * dt)) ^ n := by
      calc Real.exp (-(2.5 * dt)) ^ (n + 1)
          = Real.exp (-(2.5 * dt)) ^ n * Real.exp (-(2.5 * dt)) := pow_succ _ n
      _ < Real.exp (-(2.5 * dt)) ^ n * 1 :=
          mul_lt_mul_of_pos_left hq1 (pow_pos hq0 n)
      _ = Real.exp (-(2.5 * dt)) ^ n := mul_one _
    linarith
  · intro n
    rw [progressSeq_closed]
    linarith [pow_nonneg (le_of_lt hq0) n]
  · have h0 : Filter.Tendsto (fun n => Real.exp (-(2.5 * dt)) ^ n)
        Filter.atTop (nhds 0) :=
      tendsto_pow_atTop_nhds_zero_of_lt_one (le_of_lt hq0) hq1
    have h1 : Filter.Tendsto (fun n => 1 - Real.exp (-(2.5 * dt)) ^ n)
        Filter.atTop (nhds (1 - 0)) :=
      Filter.Tendsto.const_sub 1 h0
    have h2 := h1.congr (fun n => (progressSeq_closed dt n).symm)
    simpa using h2
  · intro p0 hp0 n
    rw [progressSeqZero_closed]
    exact mul_nonneg hp0 (pow_nonneg (le_of_lt hq0) n)

/-- Witness for `c4_progress_damp` at a one-second frame time. -/
theorem c4_progress_damp_witness : StrictMono (progressSeq 1) :=
  (c4_progress_damp 1 one_pos).1

/-- `Math.atan2 y x`, via the complex argument. -/
noncomputable def atan2 (y x : ℝ) : ℝ := Complex.arg ((x : ℂ) + y * Complex.I)

theorem sqrt_mul_cos_atan2 (y x : ℝ) :
    Real.sqrt (x * x + y * y) * Real.cos (atan2 y x) = x := by
  by_cases hz : (x : ℂ) + y * Complex.I = 0
  · have hx : x = 0 := by simpa using congrArg Complex.re hz
    have hy : y = 0 := by simpa using congrArg Complex.im hz
    simp [atan2, hx, hy]
  · have habs : Complex.abs ((x : ℂ) + y * Complex.I) = Real.sqrt (x * x + y * y) := by
      rw [Complex.abs_add_mul_I]
      congr 1
      ring
    have hre : ((x : ℂ) + y * Complex.I).re = x := by simp
    have hne : Real.sqrt (x * x + y * y) ≠ 0 := by
      rw [← habs]
      exact Complex.abs.ne_zero_iff.mpr hz
    rw [atan2, Complex.cos_arg hz, hre, habs]
    field_simp

theorem sqrt_mul_sin_atan2 (y x : ℝ) :
    Real.sqrt (x * x + y * y) * Real.sin (atan2 y x) = y := by
  by_cases hz : (x : ℂ) + y * Complex.I = 0
  · have hx : x = 0 := by simpa using congrArg Complex.re hz
    have hy : y = 0 := by simpa using congrArg Complex.im hz
    simp [atan2, hx, hy]
  · have habs : Complex.abs ((x : ℂ) + y * Complex.I) = Real.sqrt (x * x + y * y) := by
      rw [Complex.abs_add_mul_I]
      congr 1
      ring
    have him : ((x : ℂ) + y * Complex.I).im = y := by simp
    have hne : Real.sqrt (x * x + y * y) ≠ 0 := by
      rw [← habs]
      exact Complex.abs.ne_zero_iff.mpr hz
    rw [atan2, Complex.sin_arg, him, habs]
    field_simp

/-- The cubic smoothstep ease applied to the raw progress:
`progress * progress * (3 - 2 * progress)`. -/
def smoothstepEase (p : ℝ) : ℝ := p * p * (3 - 2 * p)

/-- The decaying vortex twist term `(1 - ease) * twistMagnitude`
(magnitude 18 for foliage, 15 for lights, 12 for photos). -/
def vortexTwistTerm (twistMag progress : ℝ) : ℝ :=
  (1 - smoothstepEase progress) * twistMag

/-- The per-item position interpolation of the `useFrame` loop of
`TreeSystem.tsx`, parameterized by the item kind's twist magnitude and
chaos-spin factor: polar interpolation of the chaos point
`(cx, cy, cz)` and tree point `(tx, ty, tz)` at a given raw progress and
rotation accumulator `rot`. -/
noncomputable def itemPos (twistMag chaosFac cx cy cz tx ty tz progress rot : ℝ) :
    ℝ × ℝ × ℝ :=
  let ease := smoothstepEase progress
  let y := lerp cy ty ease
  let tr := Real.sqrt (tx * tx + tz * tz)
  let tAngle := atan2 tz tx
  let cr := Real.sqrt (cx * cx + cz * cz)
  let r := lerp cr tr ease
  let vortexTwist := (1 - ease) * twistMag
  let currentAngle := tAngle + vortexTwist + rot
  let cAngle := atan2 cz cx
  let cRotatedX := cr * Real.cos (cAngle + rot * chaosFac)
  let cRotatedZ := cr * Real.sin (cAngle + rot * chaosFac)
  (lerp cRotatedX (r * Real.cos currentAngle) ease,
   y,
   lerp cRotatedZ (r * Real.sin currentAngle) ease)

/-- `C3`: at raw progress 1 the vortex twist term is exactly 0, and the
interpolated position of every scene item equals its precomputed tree
layout point rotated (in the XZ plane) by the global rotation accumulator
alone, for every twist magnitude and chaos-spin factor. -/
theorem c3_vortex_twist_vanishes
    (twistMag chaosFac cx cy cz tx ty tz rot : ℝ) :
    vortexTwistTerm twistMag 1 = 0 ∧
    itemPos twistMag chaosFac cx cy cz tx ty tz 1 rot =
      (tx * Real.cos rot - tz * Real.sin rot, ty,
       tx * Real.sin rot + tz * Real.cos rot) := by
  have hease : smoothstepEase 1 = 1 := by norm_num [smoothstepEase]
  constructor
  · simp [vortexTwistTerm, hease]
  · simp only [itemPos, hease, lerp, Prod.mk.injEq]
    norm_num
    have hc := sqrt_mul_cos_atan2 tz tx
    have hs := sqrt_mul_sin_atan2 tz tx
    constructor
    · rw [Real.cos_add]
      linear_combination Real.cos rot * hc - Real.sin rot * hs
    · rw [Real.sin_add]
      linear_combination Real.sin rot * hc + Real.cos rot * hs

/-- The photo file list of `TreeSystem.tsx`: the two special photos
followed by the dated photos (already in sorted order). -/
def photoFiles : List String :=
  ["1.jpg", "2.jpg",
   "2024_06_1.jpg", "2024_07_1.jpg", "2024_07_2.jpg",
   "2024_09_1.jpg", "2024_09_2.jpg", "2024_09_3.jpg",
   "2024_09_4.jpg", "2024_09_5.jpg", "2024_09_6.jpg",
   "2024_10_1.jpg", "2024_11_1.jpg", "2024_12_1.jpg",
   "2024_12_2.jpg", "2024_12_3.jpg", "2025_01_1.jpg",
   "2025_01_2.jpg", "2025_01_3.jpg", "2025_01_4.jpg",
   "2025_01_5.jpg", "2025_01_6.jpg", "2025_01_7.jpg",
   "2025_02_1.jpg", "2025_05_1.jpg", "2025_06_1.jpg",
   "2025_06_2.jpg", "2025_06_3.jpg", "2025_09_1.jpg",
   "2025_10_1.jpg", "2025_10_2.jpg", "2025_11_1.jpg",
   "2025_11_2.jpg"]

theorem photoFiles_length : photoFiles.length = 33 := rfl

/-- JavaScript number division as it appears in
`i / (photoFiles.length - 1)`: a zero denominator yields a non-finite
value (NaN for `0/0`), modelled as `none`. -/
def jsDiv (a b : ℚ) : Option ℚ := if b = 0 then none else some (a / b)

/-- The photo index fraction `t = i / (count - 1)` exactly as the code
computes it, generalized over the item count. -/
def photoIndexFraction (count i : ℕ) : Option ℚ := jsDiv (i : ℚ) ((count : ℚ) - 1)

/-- The index fraction as claim `C2` words it: `t = 0` when `count ≤ 1`
instead of dividing by zero. -/
def photoIndexFractionSpec (count i : ℕ) : Option ℚ :=
  if count ≤ 1 then some 0 else some ((i : ℚ) / ((count : ℚ) - 1))

/-- The tree heights `h = t * 15 - 7` generated for an indexed photo list
(the `photoFiles.map((fileName, i) => ...)` loop). -/
def photoTreeHeights (files : List String) : List (Option ℚ) :=
  (List.range files.length).map fun i =>
    (photoIndexFraction files.length i).map fun t => t * 15 - 7

/-- Counterexample to `C2` as stated: the code contains no `count ≤ 1`
guard; at `count = 1` it computes `0 / 0` (NaN), not the `t = 0` the
claim asserts. -/
theorem c2_fraction_counterexample :
    photoIndexFraction 1 0 = none ∧ photoIndexFractionSpec 1 0 = some 0 ∧
      photoIndexFraction 1 0 ≠ photoIndexFractionSpec 1 0 := by
  refine ⟨?_, ?_, ?_⟩ <;>
    norm_num [photoIndexFraction, photoIndexFractionSpec, jsDiv]
  exact fun h => Option.noConfusion h

/-- `C2` amended: the generation loop over an empty list produces an empty
array without error, and in the code the photo count is fixed at 33, so
the denominator `count - 1 = 32` is never zero and every generated index
fraction (hence every tree height) is well defined; no `count ≤ 1` guard
exists or is exercised. -/
theorem c2_fraction_amended :
    photoTreeHeights [] = [] ∧
    photoFiles.length = 33 ∧
    (∀ i : ℕ, photoIndexFraction photoFiles.length i = some ((i : ℚ) / 32)) ∧
    (photoTreeHeights photoFiles).all Option.isSome = true := by
  have hfrac : ∀ i : ℕ, photoIndexFraction photoFiles.length i = some ((i : ℚ) / 32) := by
    intro i
    rw [photoFiles_length]
    norm_num [photoIndexFraction, jsDiv]
  refine ⟨rfl, rfl, hfrac, ?_⟩
  rw [List.all_eq_true]
  intro h hmem
  simp only [photoTreeHeights, List.mem_map] at hmem
  obtain ⟨i, _, rfl⟩ := hmem
  rw [hfrac i]
  rfl

/-- The tree-layout height of the photo at index `i`
(`h = t * 15 - 7`, stored as the `y` of `treePos`). -/
def photoTreeHeight (i : ℕ) : ℚ := ((i : ℚ) / ((photoFiles.length : ℚ) - 1)) * 15 - 7

/-- `lightCount` of `TreeSystem.tsx`. -/
def lightCount : ℕ := 500

/-- The tree-layout height of the light at index `i`
(`h = t * 15`, stored as `h - 7.5`). -/
def lightTreeHeight (i : ℕ) : ℚ := ((i : ℚ) / (lightCount : ℚ)) * 15 - 15/2

/-- The helical angle of the photo at index `i`: `t * PI * 10`. -/
noncomputable def photoTreeAngle (i : ℕ) : ℝ :=
  ((i : ℝ) / ((photoFiles.length : ℝ) - 1)) * Real.pi * 10

/-- The helical angle of the light at index `i`: `t * PI * 35`. -/
noncomputable def lightTreeAngle (i : ℕ) : ℝ :=
  ((i : ℝ) / (lightCount : ℝ)) * Real.pi * 35

/-- `C9`: photo and light tree heights are strictly increasing in the item
index, both helical angles strictly advance with the index, and the light
string accumulates a strictly larger total angle (more windings, factor
35 pi versus 10 pi) over its full index range than the photo string. -/
theorem c9_layout_monotone :
    (∀ i j : ℕ, i < j → photoTreeHeight i < photoTreeHeight j) ∧
    (∀ i j : ℕ, i < j → lightTreeHeight i < lightTreeHeight j) ∧
    (∀ i j : ℕ, i < j → photoTreeAngle i < photoTreeAngle j) ∧
    (∀ i j : ℕ, i < j → lightTreeAngle i < lightTreeAngle j) ∧
    photoTreeAngle (photoFiles.length - 1) < lightTreeAngle (lightCount - 1) := by
  have hpi := Real.pi_pos
  refine ⟨?_, ?_, ?_, ?_, ?_⟩
  · intro i j hij
    have h : (i : ℚ) < j := by exact_mod_cast hij
    simp only [photoTreeHeight, photoFiles_length]
    norm_num
    linarith
  · intro i j hij
    have h : (i : ℚ) < j := by exact_mod_cast hij
    simp only [lightTreeHeight, lightCount]
    norm_num
    linarith
  · intro i j hij
    have h : (i : ℝ) < j := by exact_mod_cast hij
    simp only [photoTreeAngle, photoFiles_length]
    norm_num
    nlinarith [mul_pos (sub_pos.mpr h) hpi]
  · intro i j hij
    have h : (i : ℝ) < j := by exact_mod_cast hij
    simp only [lightTreeAngle, lightCount]
    norm_num
    nlinarith [mul_pos (sub_pos.mpr h) hpi]
  · simp only [photoTreeAngle, lightTreeAngle, photoFiles_length, lightCount]
    norm_num
    nlinarith

/-- Witness for `c9_layout_monotone` at indices 0 and 1. -/
theorem c9_layout_monotone_witness : photoTreeHeight 0 < photoTreeHeight 1 :=
  c9_layout_monotone.1 0 1 (by norm_num)
